import Mathlib

/-!
Verification of the Maya script `tn_randomTriangulateUI.py`.

The script drives Maya through the `cmds` command surface.  The embedding
models that surface explicitly: a `Scene` is the observable state of the
host's scene graph (vertex/edge/face counts, per-vertex positions in world
and object space, and the parsed content of the `polyInfo` replies), and a
`Host` bundles the scene with the selection query, the node-type queries,
and the host-owned mesh operations (triangulate, edge flip, history
deletion), each of which may fail, modelling a raised exception.  `polyInfo`
replies are modelled at the parsed level: `Scene.edgeFaces` is the list of
face indices the script's integer-parsing loop extracts from the
`edgeToFace` line (`none` when the reply is empty or has no colon), and
`Scene.edgeVertNums` is the list of numbers the regex extracts from the
`edgeToVertex` line (`none` when the reply is empty).

Python's process-wide `random` generator is modelled as an explicit
`RngState`: a stream of `random.random()` values together with a cursor;
`random.seed(n)` replaces the state by the host-determined stream for `n`
with cursor `0`, and `random.uniform(a, b)` is `a + (b - a) * random()`,
exactly CPython's formula.  Floats are modelled as rationals.

The procedure `random_triangulate_with_options` is embedded as a pure
function from a `Host`, its parameters and the pre-existing generator state
to a trace of host-visible effects (`Event`s), the final scene, the final
generator state, and a flag saying whether it returned normally or let an
exception propagate (after the `finally` closed the undo chunk).
-/

namespace TnRandomTriangulate

/-- A 3d position; the script reads and writes them through `cmds.xform`. -/
structure Pos where
  x : ℚ
  y : ℚ
  z : ℚ
deriving DecidableEq

/-- Observable state of the host's scene graph, as the script queries it. -/
structure Scene where
  /-- Reply of `cmds.polyEvaluate(obj, vertex=True)`. -/
  vtxCount : String → ℕ
  /-- Reply of `cmds.polyEvaluate(obj, edge=True)`. -/
  edgeCount : String → ℕ
  /-- Face count of a mesh (`cmds.polyEvaluate(obj, face=True)`). -/
  faceCount : String → ℕ
  /-- World-space vertex positions (`cmds.xform(comp, q=True, ws=True, t=True)`). -/
  posWS : String → ℕ → Pos
  /-- Object-space vertex positions (`cmds.xform(comp, q=True, os=True, t=True)`). -/
  posOS : String → ℕ → Pos
  /-- Integers the script parses out of `cmds.polyInfo(edge, edgeToFace=True)`:
  `none` when the reply is empty or its line has no colon. -/
  edgeFaces : String → ℕ → Option (List ℤ)
  /-- Numbers the regex finds in `cmds.polyInfo(edge, edgeToVertex=True)`:
  `none` when the reply is empty. -/
  edgeVertNums : String → ℕ → Option (List ℕ)
  /-- The actual endpoint vertex indices of an edge.  Maya's `edgeToVertex`
  reply reads `EDGE e: v1 v2 ...`, so on a well-formed host
  `edgeVertNums obj e = some (e :: edgeVerts obj e)`. -/
  edgeVerts : String → ℕ → List ℕ

/-- The host application: scene state, queries, and mesh operations.  An
operation returning `none` models the command raising an exception. -/
structure Host where
  /-- Reply of `cmds.ls(sl=True, long=True)` (empty list for `None`). -/
  selection : List String
  /-- Reply of `cmds.objExists`. -/
  objExists : String → Bool
  /-- Reply of `cmds.nodeType`. -/
  nodeType : String → String
  /-- Reply of `cmds.listRelatives(s, parent=True, fullPath=True)`. -/
  parentOf : String → List String
  /-- Reply of `cmds.listRelatives(s, shapes=True, fullPath=True, type="mesh")`. -/
  meshShapes : String → List String
  /-- Reply of `cmds.getAttr(sh + ".intermediateObject")`. -/
  isIntermediate : String → Bool
  /-- The scene at invocation time. -/
  scene : Scene
  /-- Effect of `cmds.polyTriangulate` on the scene; `none` = raises. -/
  triangulateFn : Scene → String → Option Scene
  /-- Effect of `cmds.polyFlipEdge` on the scene; `none` = raises. -/
  flipFn : Scene → String → ℕ → Option Scene
  /-- Effect of `cmds.delete(obj, ch=True)` on the scene; `none` = raises. -/
  deleteHistoryFn : Scene → String → Option Scene
  /-- The stream of `random.random()` values the process-wide generator
  yields after `random.seed(n)`. -/
  seedStream : ℤ → ℕ → ℚ

/-- State of Python's process-wide `random` generator: the stream of
upcoming `random.random()` values and a cursor into it. -/
structure RngState where
  stream : ℕ → ℚ
  k : ℕ

/-- One call of `random.random()`: the value and the advanced state. -/
def draw (g : RngState) : ℚ × RngState :=
  (g.stream g.k, ⟨g.stream, g.k + 1⟩)

/-- CPython's `random.uniform(a, b)` transform: `a + (b - a) * random()`. -/
def uniform (a b r : ℚ) : ℚ :=
  a + (b - a) * r

/-- `random.uniform(a, b)` as a state transformer on the generator. -/
def uniformDraw (a b : ℚ) (g : RngState) : ℚ × RngState :=
  let p := draw g
  (uniform a b p.1, p.2)

/-- Host-visible effects of one invocation, in order of occurrence. -/
inductive Event where
  /-- `cmds.warning(msg)`. -/
  | warning (msg : String)
  /-- `cmds.undoInfo(openChunk=True)`. -/
  | undoOpen
  /-- `cmds.undoInfo(closeChunk=True)`. -/
  | undoClose
  /-- A position write `cmds.xform(obj.vtx[i], os/ws=True, t=p)`. -/
  | xformSet (obj : String) (i : ℕ) (objectSpace : Bool) (p : Pos)
  /-- `cmds.polyTriangulate(obj.f[:], ch=keepHistory)`. -/
  | triangulate (obj : String) (keepHistory : Bool)
  /-- An invocation of `cmds.polyFlipEdge(obj.e[e], ch=keepHistory)`; `faces`
  is what `_edge_to_faces` returned for the edge just before the call. -/
  | flipEdge (obj : String) (e : ℕ) (faces : List ℤ) (keepHistory : Bool)
  /-- `cmds.delete(obj, ch=True)`. -/
  | deleteHistory (obj : String)
  /-- The summary, sent to both `print` and `cmds.inViewMessage`. -/
  | message (msg : String)
deriving DecidableEq

/-- Parameters of `random_triangulate_with_options`, as the caller passes
them (the UI reads them off its fields). -/
structure Params where
  jitter_amount : ℚ
  seed : ℤ
  lockX : Bool
  lockY : Bool
  lockZ : Bool
  lock_boundary : Bool
  do_triangulate : Bool
  do_flip : Bool
  flip_probability : ℚ
  flip_iterations : ℤ
  keep_history : Bool
  use_object_space : Bool

/-- Lines 14-21 of the source: a component selection is cut back to its
object (`s.split(".", 1)[0]`), and a mesh-shape selection is replaced by its
parent transform when `listRelatives` yields one. -/
def resolveEntry (h : Host) (s0 : String) : String :=
  let s := if s0.contains '.' then (s0.splitOn ".").headI else s0
  if h.objExists s = true ∧ h.nodeType s = "mesh" then
    match h.parentOf s with
    | [] => s
    | q :: _ => q
  else s

/-- Line 26-28 of the source: the mesh shapes under a transform with the
intermediate ones dropped. -/
def qualifyingShapes (h : Host) (s : String) : List String :=
  (h.meshShapes s).filter (fun sh => h.isIntermediate sh = false)

/-- The loop of `_get_mesh_transforms_from_selection`: walk the selection,
resolve every entry, keep transforms owning a qualifying mesh shape, and
deduplicate through the `seen` set while preserving order. -/
def meshTransformsLoop (h : Host) : List String → List String → List String
  | [], _ => []
  | s0 :: rest, seen =>
    let s := resolveEntry h s0
    if h.objExists s = true ∧ h.nodeType s = "transform" then
      if qualifyingShapes h s ≠ [] ∧ s ∉ seen then
        s :: meshTransformsLoop h rest (s :: seen)
      else
        meshTransformsLoop h rest seen
    else
      meshTransformsLoop h rest seen

/-- `_get_mesh_transforms_from_selection` (lines 8-33 of the source). -/
def get_mesh_transforms_from_selection (h : Host) : List String :=
  meshTransformsLoop h h.selection []

/-- `_boundary_vertex_indices` (lines 35-71): for every edge whose parsed
`edgeToFace` reply lists exactly one face, add all numbers but the first of
its `edgeToVertex` reply (the first is the edge's own index). -/
def boundary_vertex_indices (sc : Scene) (obj : String) : Finset ℕ :=
  (Finset.range (sc.edgeCount obj)).biUnion fun e =>
    match sc.edgeFaces obj e with
    | none => ∅
    | some faces =>
      if faces.length = 1 then
        match sc.edgeVertNums obj e with
        | none => ∅
        | some nums => (nums.drop 1).toFinset
      else ∅

/-- `_edge_to_faces` (lines 73-87): the parsed face list of an edge, `[]`
when the `polyInfo` reply is empty or has no colon. -/
def edge_to_faces (sc : Scene) (obj : String) (e : ℕ) : List ℤ :=
  (sc.edgeFaces obj e).getD []

/-- Vertex position in the space the run operates in (`os=True` when
`use_object_space`, else `ws=True`). -/
def getPos (sc : Scene) (os : Bool) (obj : String) (i : ℕ) : Pos :=
  if os then sc.posOS obj i else sc.posWS obj i

/-- Effect of `cmds.xform(obj.vtx[i], t=q)` in the given space: only the
position of that vertex in that space changes. -/
def setPos (sc : Scene) (os : Bool) (obj : String) (i : ℕ) (q : Pos) : Scene :=
  if os then
    { sc with posOS := fun o j => if o = obj ∧ j = i then q else sc.posOS o j }
  else
    { sc with posWS := fun o j => if o = obj ∧ j = i then q else sc.posWS o j }

/-- Running state of a per-mesh loop: the scene so far, a counter (`moved`
in the randomize pass, `flipped` in the flip phase), the generator, and the
events emitted so far. -/
structure St where
  scene : Scene
  cnt : ℕ
  g : RngState
  events : List Event

/-- Lines 137-139 of the source: the per-axis delta, `0.0` for a locked
axis (consuming no draw), else `random.uniform(-jitter, jitter)`. -/
def axisDelta (lock : Bool) (j : ℚ) (g : RngState) : ℚ × RngState :=
  if lock then (0, g) else uniformDraw (-j) j g

/-- Lines 128-151 of the source, one vertex of the randomize loop: query
the position, draw the three axis deltas, and either skip (all deltas zero)
or write back position plus delta and count the vertex as moved. -/
def randomizeVertex (p : Params) (obj : String) (i : ℕ) (st : St) : St :=
  let q := getPos st.scene p.use_object_space obj i
  let ax := axisDelta p.lockX p.jitter_amount st.g
  let ay := axisDelta p.lockY p.jitter_amount ax.2
  let az := axisDelta p.lockZ p.jitter_amount ay.2
  if ax.1 = 0 ∧ ay.1 = 0 ∧ az.1 = 0 then
    { st with g := az.2 }
  else
    { scene := setPos st.scene p.use_object_space obj i ⟨q.x + ax.1, q.y + ay.1, q.z + az.1⟩
      cnt := st.cnt + 1
      g := az.2
      events := st.events ++
        [.xformSet obj i p.use_object_space ⟨q.x + ax.1, q.y + ay.1, q.z + az.1⟩] }

/-- Lines 124-151 of the source: the randomize loop over a list of vertex
indices, skipping the ones in the boundary set. -/
def randomizeLoop (p : Params) (obj : String) (B : Finset ℕ) :
    List ℕ → St → St
  | [], st => st
  | i :: rest, st =>
    if i ∈ B then
      randomizeLoop p obj B rest st
    else
      randomizeLoop p obj B rest (randomizeVertex p obj i st)

/-- The full randomize pass of one mesh: the loop over
`range(cmds.polyEvaluate(obj, vertex=True))`. -/
def randomizePass (p : Params) (obj : String) (B : Finset ℕ) (st : St) : St :=
  randomizeLoop p obj B (List.range (st.scene.vtxCount obj)) st

/-- Lines 162-172 of the source: one pass of the flip phase over the edge
indices.  Every edge consumes one `random.random()` draw; an edge is only
flipped when the draw does not exceed `flip_probability` and its parsed
face list has length exactly two; a raising `polyFlipEdge` is swallowed
(event emitted, `flipped` not incremented, scene unchanged). -/
def flipEdgePass (h : Host) (p : Params) (obj : String) :
    List ℕ → St → St
  | [], st => st
  | e :: rest, st =>
    let pr := draw st.g
    if pr.1 > p.flip_probability then
      flipEdgePass h p obj rest { st with g := pr.2 }
    else
      let faces := edge_to_faces st.scene obj e
      if faces.length ≠ 2 then
        flipEdgePass h p obj rest { st with g := pr.2 }
      else
        match h.flipFn st.scene obj e with
        | some sc' =>
          flipEdgePass h p obj rest
            ⟨sc', st.cnt + 1, pr.2, st.events ++ [.flipEdge obj e faces p.keep_history]⟩
        | none =>
          flipEdgePass h p obj rest
            { st with g := pr.2, events := st.events ++ [.flipEdge obj e faces p.keep_history] }

/-- Lines 161-172 of the source: `flip_iterations` repetitions of the edge
pass; the edge count is queried once, before the first pass. -/
def flipIterLoop (h : Host) (p : Params) (obj : String) :
    ℕ → ℕ → St → St
  | 0, _, st => st
  | n + 1, ec, st => flipIterLoop h p obj n ec (flipEdgePass h p obj (List.range ec) st)

/-- Line 113 of the source: `flip_iterations = max(1, int(flip_iterations))`. -/
def resolveFlipIterations (n : ℤ) : ℕ :=
  (max 1 n).toNat

/-- Line 177 of the source: the per-mesh summary string,
`f"{obj} | moved_vtx={moved}" + (f" | flipped={flipped}" if do_flip else "")`. -/
def summaryMsg (p : Params) (obj : String) (moved flipped : ℕ) : String :=
  obj ++ " | moved_vtx=" ++ toString moved ++
    (if p.do_flip then " | flipped=" ++ toString flipped else "")

/-- Outcome of a mesh-processing step or of the whole object loop: events
emitted, resulting scene and generator, and whether it completed without a
host call raising. -/
structure LoopOut where
  events : List Event
  scene : Scene
  gen : RngState
  ok : Bool

/-- Lines 174-179 of the source: emit the summary message (both `print`
and `cmds.inViewMessage`) and finish the mesh normally. -/
def finishObj (p : Params) (obj : String) (moved flipped : ℕ)
    (sc : Scene) (g : RngState) (evs : List Event) : LoopOut :=
  ⟨evs ++ [.message (summaryMsg p obj moved flipped)], sc, g, true⟩

/-- Lines 157-179 of the source: after triangulation, run the optional flip
phase, delete construction history when `keep_history` is off (a raise here
aborts the run), and emit the summary. -/
def processTail (h : Host) (p : Params) (obj : String) (moved : ℕ)
    (sc : Scene) (g : RngState) (evs : List Event) : LoopOut :=
  let f : St :=
    if p.do_flip then
      flipIterLoop h p obj (resolveFlipIterations p.flip_iterations)
        (sc.edgeCount obj) ⟨sc, 0, g, evs⟩
    else ⟨sc, 0, g, evs⟩
  if p.keep_history then
    finishObj p obj moved f.cnt f.scene f.g f.events
  else
    match h.deleteHistoryFn f.scene obj with
    | none => ⟨f.events ++ [.deleteHistory obj], f.scene, f.g, false⟩
    | some sc2 => finishObj p obj moved f.cnt sc2 f.g (f.events ++ [.deleteHistory obj])

/-- Lines 119-179 of the source: processing of one resolved mesh — boundary
set (when `lock_boundary`), randomize pass, optional triangulation (a raise
aborts the run), then `processTail`. -/
def processObj (h : Host) (p : Params) (obj : String) (sc0 : Scene) (g0 : RngState) : LoopOut :=
  let B := if p.lock_boundary then boundary_vertex_indices sc0 obj else (∅ : Finset ℕ)
  let st := randomizePass p obj B ⟨sc0, 0, g0, []⟩
  if p.do_triangulate then
    match h.triangulateFn st.scene obj with
    | none => ⟨st.events ++ [.triangulate obj p.keep_history], st.scene, st.g, false⟩
    | some sc1 =>
      processTail h p obj st.cnt sc1 st.g (st.events ++ [.triangulate obj p.keep_history])
  else
    processTail h p obj st.cnt st.scene st.g st.events

/-- The `for obj in objs` loop of the source: a raise inside one mesh's
processing aborts the remaining meshes. -/
def objsLoop (h : Host) (p : Params) : List String → Scene → RngState → LoopOut
  | [], sc, g => ⟨[], sc, g, true⟩
  | obj :: rest, sc, g =>
    let r := processObj h p obj sc g
    if r.ok then
      let r2 := objsLoop h p rest r.scene r.gen
      ⟨r.events ++ r2.events, r2.scene, r2.gen, r2.ok⟩
    else
      ⟨r.events, r.scene, r.gen, false⟩

/-- The warning of line 107, issued on an empty resolved selection. -/
def warnMsg : String :=
  "ポリゴンメッシュを選択してから実行してください（オブジェクト/コンポーネントどちらでもOK）。"

/-- Result of one invocation: the event trace, the final scene, whether the
call returned normally (`false` = an exception propagated to the caller,
after the undo chunk was closed), and the final state of the process-wide
generator. -/
structure RunOut where
  events : List Event
  scene : Scene
  ok : Bool
  gen : RngState

/-- `random_triangulate_with_options` (lines 89-182 of the source).  `g0` is
the state the process-wide `random` generator happens to be in when the call
starts; line 115 reseeds it from `p.seed` before any draw.  An empty
resolved selection warns and returns before the undo chunk opens; otherwise
the whole mesh loop runs between `undoInfo(openChunk)` and the
`finally`-guaranteed `undoInfo(closeChunk)`. -/
def random_triangulate_with_options (h : Host) (p : Params) (g0 : RngState) : RunOut :=
  let objs := get_mesh_transforms_from_selection h
  if objs.isEmpty then
    ⟨[.warning warnMsg], h.scene, true, g0⟩
  else
    let r := objsLoop h p objs h.scene ⟨h.seedStream p.seed, 0⟩
    ⟨.undoOpen :: (r.events ++ [.undoClose]), r.scene, r.ok, r.gen⟩

/-! ### Specification-side definitions

These follow the words of the specification, to be compared with the
source-side definitions above. -/

/-- How many draws one axis consumes: none when locked, one otherwise. -/
def lockCost (lock : Bool) : ℕ :=
  if lock then 0 else 1

/-- Number of unlocked axes, i.e. draws one processed vertex consumes. -/
def numUnlocked (p : Params) : ℕ :=
  lockCost p.lockX + lockCost p.lockY + lockCost p.lockZ

/-- Spec-side per-axis delta: zero for a locked axis, a uniform draw from
`[-jitter, jitter]` (taken at stream position `k`) for an unlocked one. -/
def specDelta (lock : Bool) (j : ℚ) (u : ℕ → ℚ) (k : ℕ) : ℚ :=
  if lock then 0 else uniform (-j) j (u k)

/-- Spec-side x delta of the vertex whose draws start at position `k`. -/
def dX (p : Params) (u : ℕ → ℚ) (k : ℕ) : ℚ :=
  specDelta p.lockX p.jitter_amount u k

/-- Spec-side y delta; the y draw comes after the x draw, if any. -/
def dY (p : Params) (u : ℕ → ℚ) (k : ℕ) : ℚ :=
  specDelta p.lockY p.jitter_amount u (k + lockCost p.lockX)

/-- Spec-side z delta; the z draw comes after the x and y draws, if any. -/
def dZ (p : Params) (u : ℕ → ℚ) (k : ℕ) : ℚ :=
  specDelta p.lockZ p.jitter_amount u (k + lockCost p.lockX + lockCost p.lockY)

/-- Old position plus the three spec-side deltas. -/
def jittered (p : Params) (u : ℕ → ℚ) (k : ℕ) (q : Pos) : Pos :=
  ⟨q.x + dX p u k, q.y + dY p u k, q.z + dZ p u k⟩

/-- Outcome the specification predicts for a randomize pass: the position
writes, the moved count, and the final stream position. -/
structure SpecOut where
  events : List Event
  moved : ℕ
  k : ℕ

/-- The specification's description of the randomize pass: every vertex not
in the boundary set gets per-axis deltas — zero for locked axes, a uniform
draw from `[-jitter, jitter]` for unlocked ones, consumed in x, y, z order
from stream position `k` on — and is written back as old position plus
delta, in the chosen space, unless all three deltas are zero, in which case
it is skipped and not counted as moved.  Positions are read off the initial
scene `sc`: the pass touches each vertex at most once. -/
def jitterSpec (p : Params) (obj : String) (B : Finset ℕ) (sc : Scene) (u : ℕ → ℚ) :
    List ℕ → ℕ → SpecOut
  | [], k => ⟨[], 0, k⟩
  | i :: rest, k =>
    if i ∈ B then
      jitterSpec p obj B sc u rest k
    else
      let r := jitterSpec p obj B sc u rest (k + numUnlocked p)
      if dX p u k = 0 ∧ dY p u k = 0 ∧ dZ p u k = 0 then r
      else
        ⟨.xformSet obj i p.use_object_space
            (jittered p u k (getPos sc p.use_object_space obj i)) :: r.events,
          r.moved + 1, r.k⟩

/-! ### Event classifiers -/

/-- Whether an event is one of the two undo-chunk controls. -/
def Event.isUndo : Event → Bool
  | .undoOpen => true
  | .undoClose => true
  | _ => false

/-- Whether an event is a `polyFlipEdge` invocation. -/
def Event.isFlipEdge : Event → Bool
  | .flipEdge _ _ _ _ => true
  | _ => false

/-- A `polyFlipEdge` invocation is acceptable only on an edge whose queried
adjacent-face list has length exactly two; every other event is fine. -/
def flipFacesOk : Event → Bool
  | .flipEdge _ _ fs _ => fs.length == 2
  | _ => true

/-- Shape of every event the mesh loop can emit: a position write, a
triangulation, a flip of an edge whose queried face list had length two
(and only with `do_flip` on), a history deletion, or a summary message. -/
def RunShape (p : Params) (ev : Event) : Prop :=
  (∃ o i os q, ev = .xformSet o i os q) ∨
  (∃ o, ev = .triangulate o p.keep_history) ∨
  (∃ o e fs, ev = .flipEdge o e fs p.keep_history ∧ fs.length = 2 ∧ p.do_flip = true) ∨
  (∃ o, ev = .deleteHistory o) ∨
  (∃ o mv fl, ev = .message (summaryMsg p o mv fl))

/-! ### Concrete fixtures

Small closed hosts and parameter records, used to instantiate the theorems
with hypotheses at concrete inputs. -/

/-- A scene with no geometry. -/
def emptyScene : Scene :=
  ⟨fun _ => 0, fun _ => 0, fun _ => 0, fun _ _ => ⟨0, 0, 0⟩, fun _ _ => ⟨0, 0, 0⟩,
    fun _ _ => none, fun _ _ => none, fun _ _ => []⟩

/-- A host with nothing selected and no scene content. -/
def emptyHost : Host :=
  ⟨[], fun _ => false, fun _ => "", fun _ => [], fun _ => [], fun _ => false, emptyScene,
    fun sc _ => some sc, fun sc _ _ => some sc, fun sc _ => some sc, fun _ _ => 0⟩

/-- A generator that always yields 0. -/
def zeroGen : RngState :=
  ⟨fun _ => 0, 0⟩

/-- The default parameters of the source (jitter 0.02, seed 1, lock Y,
boundary lock on, triangulate on, flip off with probability 0.8 and 3
iterations, keep history, world space). -/
def defaultParams : Params :=
  ⟨1/50, 1, false, true, false, true, true, false, 4/5, 3, true, false⟩

/-- A one-edge scene whose single edge borders one face and whose
`edgeToVertex` reply lists vertices 1 and 2: both are boundary vertices. -/
def boundaryScene : Scene :=
  { emptyScene with
    edgeCount := fun _ => 1
    edgeFaces := fun _ _ => some [7]
    edgeVertNums := fun _ _ => some [0, 1, 2]
    edgeVerts := fun _ _ => [1, 2] }

/-! ### Basic lemmas about the scene and the generator -/

theorem axisDelta_eq (lock : Bool) (j : ℚ) (u : ℕ → ℚ) (k : ℕ) :
    axisDelta lock j ⟨u, k⟩ = (specDelta lock j u k, ⟨u, k + lockCost lock⟩) := by
  cases lock <;> simp [axisDelta, specDelta, uniformDraw, draw, uniform, lockCost]

theorem getPos_setPos_ne (sc : Scene) (os : Bool) (obj o : String) (i i' : ℕ) (q : Pos)
    (hne : ¬(o = obj ∧ i' = i)) :
    getPos (setPos sc os obj i q) os o i' = getPos sc os o i' := by
  cases os <;> simp [getPos, setPos, hne]

theorem setPos_faceCount (sc : Scene) (os : Bool) (obj : String) (i : ℕ) (q : Pos) :
    (setPos sc os obj i q).faceCount = sc.faceCount := by
  cases os <;> rfl

/-- One step of the randomize loop, in spec terms: with the generator at
stream `u`, cursor `k`, the vertex is skipped (only the cursor advancing by
the number of unlocked axes) exactly when all three spec deltas at `k`
vanish, and otherwise written back as old position plus delta. -/
theorem randomizeVertex_spec (p : Params) (obj : String) (i : ℕ) (st : St)
    (u : ℕ → ℚ) (k : ℕ) (hg : st.g = ⟨u, k⟩) :
    randomizeVertex p obj i st =
      if dX p u k = 0 ∧ dY p u k = 0 ∧ dZ p u k = 0 then
        { st with g := ⟨u, k + numUnlocked p⟩ }
      else
        { scene := setPos st.scene p.use_object_space obj i
            (jittered p u k (getPos st.scene p.use_object_space obj i))
          cnt := st.cnt + 1
          g := ⟨u, k + numUnlocked p⟩
          events := st.events ++ [.xformSet obj i p.use_object_space
            (jittered p u k (getPos st.scene p.use_object_space obj i))] } := by
  have hk : k + lockCost p.lockX + lockCost p.lockY + lockCost p.lockZ = k + numUnlocked p := by
    simp only [numUnlocked]; omega
  simp only [randomizeVertex, hg, axisDelta_eq, dX, dY, dZ, jittered]
  rw [hk]

/-- The randomize loop matches `jitterSpec` on any duplicate-free index
list, provided the running scene still agrees with the reference scene `sc`
on the listed vertices. -/
theorem randomizeLoop_spec (p : Params) (obj : String) (B : Finset ℕ) (sc : Scene)
    (u : ℕ → ℚ) :
    ∀ (l : List ℕ) (st : St) (k : ℕ), l.Nodup →
      (∀ j, j ∈ l → getPos st.scene p.use_object_space obj j
          = getPos sc p.use_object_space obj j) →
      st.g = ⟨u, k⟩ →
      (randomizeLoop p obj B l st).events
          = st.events ++ (jitterSpec p obj B sc u l k).events ∧
      (randomizeLoop p obj B l st).cnt = st.cnt + (jitterSpec p obj B sc u l k).moved ∧
      (randomizeLoop p obj B l st).g = ⟨u, (jitterSpec p obj B sc u l k).k⟩ := by
  intro l
  induction l with
  | nil =>
    intro st k _ _ hg
    simp [randomizeLoop, jitterSpec, hg]
  | cons i rest ih =>
    intro st k hnd hag hg
    have hirest : i ∉ rest := (List.nodup_cons.mp hnd).1
    have hndr : rest.Nodup := (List.nodup_cons.mp hnd).2
    by_cases hiB : i ∈ B
    · have h := ih st k hndr (fun j hj => hag j (List.mem_cons_of_mem _ hj)) hg
      simpa [randomizeLoop, jitterSpec, hiB] using h
    · rw [show randomizeLoop p obj B (i :: rest) st
          = randomizeLoop p obj B rest (randomizeVertex p obj i st) by
        simp [randomizeLoop, hiB]]
      rw [randomizeVertex_spec p obj i st u k hg]
      by_cases hz : dX p u k = 0 ∧ dY p u k = 0 ∧ dZ p u k = 0
      · rw [if_pos hz]
        have h := ih { st with g := ⟨u, k + numUnlocked p⟩ } (k + numUnlocked p) hndr
          (fun j hj => hag j (List.mem_cons_of_mem _ hj)) rfl
        simpa [jitterSpec, hiB, hz] using h
      · rw [if_neg hz]
        set q := jittered p u k (getPos st.scene p.use_object_space obj i) with hq
        have hagr : ∀ j, j ∈ rest →
            getPos (setPos st.scene p.use_object_space obj i q) p.use_object_space obj j
              = getPos sc p.use_object_space obj j := by
          intro j hj
          rw [getPos_setPos_ne]
          · exact hag j (List.mem_cons_of_mem _ hj)
          · rintro ⟨-, hji⟩
            exact hirest (hji ▸ hj)
        have h := ih
          { scene := setPos st.scene p.use_object_space obj i q
            cnt := st.cnt + 1
            g := ⟨u, k + numUnlocked p⟩
            events := st.events ++ [.xformSet obj i p.use_object_space q] }
          (k + numUnlocked p) hndr hagr rfl
        have hqi : q = jittered p u k (getPos sc p.use_object_space obj i) := by
          rw [hq, hag i (List.mem_cons_self i rest)]
        refine ⟨?_, ?_, ?_⟩
        · rw [h.1]
          simp [jitterSpec, hiB, hz, hqi]
        · rw [h.2.1]
          simp [jitterSpec, hiB, hz]
          omega
        · rw [h.2.2]
          simp [jitterSpec, hiB, hz]

/-- C1.  The randomize pass of `random_triangulate_with_options` (run per
mesh on the vertex range, lines 124-151) refines the specification: for
every vertex index not in the boundary set the per-axis delta is zero for
each locked axis and a uniform draw from `[-jitter, jitter]` for each
unlocked axis (draws consumed in x, y, z order), the vertex is written back
in the chosen space as old position plus delta, and it is skipped — no
write, moved count not incremented — exactly when all three deltas are
zero; boundary vertices consume no draws and emit nothing. -/
theorem C1_randomize_pass_refines_spec (p : Params) (obj : String) (B : Finset ℕ)
    (sc : Scene) (u : ℕ → ℚ) (k : ℕ) :
    (randomizePass p obj B ⟨sc, 0, ⟨u, k⟩, []⟩).events
        = (jitterSpec p obj B sc u (List.range (sc.vtxCount obj)) k).events ∧
      (randomizePass p obj B ⟨sc, 0, ⟨u, k⟩, []⟩).cnt
        = (jitterSpec p obj B sc u (List.range (sc.vtxCount obj)) k).moved ∧
      (randomizePass p obj B ⟨sc, 0, ⟨u, k⟩, []⟩).g
        = ⟨u, (jitterSpec p obj B sc u (List.range (sc.vtxCount obj)) k).k⟩ := by
  have h := randomizeLoop_spec p obj B sc u (List.range (sc.vtxCount obj))
    ⟨sc, 0, ⟨u, k⟩, []⟩ k (List.nodup_range _) (fun j _ => rfl) rfl
  simpa [randomizePass] using h

/-! ### Shape of the emitted events -/

theorem randomizeVertex_events_mem (p : Params) (obj : String) (i : ℕ) (st : St)
    (ev : Event) (hm : ev ∈ (randomizeVertex p obj i st).events) :
    ev ∈ st.events ∨ ∃ os q, ev = .xformSet obj i os q := by
  simp only [randomizeVertex] at hm
  split at hm
  · exact Or.inl hm
  · rcases List.mem_append.mp hm with hm | hm
    · exact Or.inl hm
    · exact Or.inr ⟨p.use_object_space, _, List.mem_singleton.mp hm⟩

theorem randomizeLoop_events_mem (p : Params) (obj : String) (B : Finset ℕ) :
    ∀ (l : List ℕ) (st : St) (ev : Event), ev ∈ (randomizeLoop p obj B l st).events →
      ev ∈ st.events ∨ ∃ i os q, ev = .xformSet obj i os q ∧ i ∉ B := by
  intro l
  induction l with
  | nil =>
    intro st ev hm
    exact Or.inl (by simpa [randomizeLoop] using hm)
  | cons i rest ih =>
    intro st ev hm
    by_cases hiB : i ∈ B
    · rw [show randomizeLoop p obj B (i :: rest) st = randomizeLoop p obj B rest st by
        simp [randomizeLoop, hiB]] at hm
      exact ih st ev hm
    · rw [show randomizeLoop p obj B (i :: rest) st
          = randomizeLoop p obj B rest (randomizeVertex p obj i st) by
        simp [randomizeLoop, hiB]] at hm
      rcases ih _ ev hm with hm2 | hm2
      · rcases randomizeVertex_events_mem p obj i st ev hm2 with hm3 | ⟨os, q, rfl⟩
        · exact Or.inl hm3
        · exact Or.inr ⟨i, os, q, rfl, hiB⟩
      · exact Or.inr hm2

theorem flipEdgePass_events_mem (h : Host) (p : Params) (obj : String) :
    ∀ (l : List ℕ) (st : St) (ev : Event), ev ∈ (flipEdgePass h p obj l st).events →
      ev ∈ st.events ∨ ∃ e fs, ev = .flipEdge obj e fs p.keep_history ∧ fs.length = 2 := by
  intro l
  induction l with
  | nil =>
    intro st ev hm
    exact Or.inl (by simpa [flipEdgePass] using hm)
  | cons e rest ih =>
    intro st ev hm
    simp only [flipEdgePass] at hm
    split at hm
    · rcases ih _ ev hm with hm2 | hm2
      · exact Or.inl hm2
      · exact Or.inr hm2
    · split at hm
      · rcases ih _ ev hm with hm2 | hm2
        · exact Or.inl hm2
        · exact Or.inr hm2
      · next hfl =>
        have hfl2 : (edge_to_faces st.scene obj e).length = 2 := by
          omega
        split at hm
        · next sc' heq =>
          rcases ih _ ev hm with hm2 | hm2
          · rcases List.mem_append.mp hm2 with hm3 | hm3
            · exact Or.inl hm3
            · exact Or.inr ⟨e, _, List.mem_singleton.mp hm3, hfl2⟩
          · exact Or.inr hm2
        · next heq =>
          rcases ih _ ev hm with hm2 | hm2
          · rcases List.mem_append.mp hm2 with hm3 | hm3
            · exact Or.inl hm3
            · exact Or.inr ⟨e, _, List.mem_singleton.mp hm3, hfl2⟩
          · exact Or.inr hm2

theorem flipIterLoop_events_mem (h : Host) (p : Params) (obj : String) :
    ∀ (n ec : ℕ) (st : St) (ev : Event), ev ∈ (flipIterLoop h p obj n ec st).events →
      ev ∈ st.events ∨ ∃ e fs, ev = .flipEdge obj e fs p.keep_history ∧ fs.length = 2 := by
  intro n
  induction n with
  | zero =>
    intro ec st ev hm
    exact Or.inl (by simpa [flipIterLoop] using hm)
  | succ m ih =>
    intro ec st ev hm
    rw [show flipIterLoop h p obj (m + 1) ec st
        = flipIterLoop h p obj m ec (flipEdgePass h p obj (List.range ec) st) from rfl] at hm
    rcases ih ec _ ev hm with hm2 | hm2
    · exact flipEdgePass_events_mem h p obj (List.range ec) st ev hm2
    · exact Or.inr hm2

theorem processTail_events_mem (h : Host) (p : Params) (obj : String) (mv : ℕ)
    (sc : Scene) (g : RngState) (evs : List Event) (ev : Event)
    (hm : ev ∈ (processTail h p obj mv sc g evs).events) :
    ev ∈ evs ∨
      (∃ e fs, ev = .flipEdge obj e fs p.keep_history ∧ fs.length = 2 ∧ p.do_flip = true) ∨
      ev = .deleteHistory obj ∨ ∃ fl, ev = .message (summaryMsg p obj mv fl) := by
  simp only [processTail] at hm
  have hf : ∀ ev' : Event,
      ev' ∈ (if p.do_flip then
          flipIterLoop h p obj (resolveFlipIterations p.flip_iterations)
            (sc.edgeCount obj) ⟨sc, 0, g, evs⟩
        else ⟨sc, 0, g, evs⟩ : St).events →
      ev' ∈ evs ∨
        (∃ e fs, ev' = .flipEdge obj e fs p.keep_history ∧ fs.length = 2 ∧ p.do_flip = true) := by
    intro ev' hm'
    by_cases hdf : p.do_flip
    · rw [if_pos hdf] at hm'
      rcases flipIterLoop_events_mem h p obj _ _ _ ev' hm' with hm2 | ⟨e, fs, heq, hl⟩
      · exact Or.inl hm2
      · exact Or.inr ⟨e, fs, heq, hl, hdf⟩
    · rw [if_neg hdf] at hm'
      exact Or.inl hm'
  split at hm
  · rcases List.mem_append.mp hm with hm2 | hm2
    · rcases hf ev hm2 with hm3 | hm3
      · exact Or.inl hm3
      · exact Or.inr (Or.inl hm3)
    · exact Or.inr (Or.inr (Or.inr ⟨_, List.mem_singleton.mp hm2⟩))
  · split at hm
    · next heq =>
      rcases List.mem_append.mp hm with hm2 | hm2
      · rcases hf ev hm2 with hm3 | hm3
        · exact Or.inl hm3
        · exact Or.inr (Or.inl hm3)
      · exact Or.inr (Or.inr (Or.inl (List.mem_singleton.mp hm2)))
    · next sc2 heq =>
      rcases List.mem_append.mp hm with hm2 | hm2
      · rcases List.mem_append.mp hm2 with hm3 | hm3
        · rcases hf ev hm3 with hm4 | hm4
          · exact Or.inl hm4
          · exact Or.inr (Or.inl hm4)
        · exact Or.inr (Or.inr (Or.inl (List.mem_singleton.mp hm3)))
      · exact Or.inr (Or.inr (Or.inr ⟨_, List.mem_singleton.mp hm2⟩))

theorem processObj_events_mem (h : Host) (p : Params) (obj : String) (sc0 : Scene)
    (g0 : RngState) (ev : Event) (hm : ev ∈ (processObj h p obj sc0 g0).events) :
    (∃ i os q, ev = .xformSet obj i os q ∧
        i ∉ (if p.lock_boundary then boundary_vertex_indices sc0 obj else (∅ : Finset ℕ))) ∨
      ev = .triangulate obj p.keep_history ∨
      (∃ e fs, ev = .flipEdge obj e fs p.keep_history ∧ fs.length = 2 ∧ p.do_flip = true) ∨
      ev = .deleteHistory obj ∨ ∃ mv fl, ev = .message (summaryMsg p obj mv fl) := by
  simp only [processObj] at hm
  have hpass : ∀ ev' : Event,
      ev' ∈ (randomizePass p obj
          (if p.lock_boundary then boundary_vertex_indices sc0 obj else (∅ : Finset ℕ))
          ⟨sc0, 0, g0, []⟩).events →
      ∃ i os q, ev' = .xformSet obj i os q ∧
        i ∉ (if p.lock_boundary then boundary_vertex_indices sc0 obj else (∅ : Finset ℕ)) := by
    intro ev' hm'
    rcases randomizeLoop_events_mem p obj _ _ _ ev' hm' with hm2 | hm2
    · simp at hm2
    · exact hm2
  split at hm
  · split at hm
    · next heq =>
      rcases List.mem_append.mp hm with hm2 | hm2
      · exact Or.inl (hpass ev hm2)
      · exact Or.inr (Or.inl (List.mem_singleton.mp hm2))
    · next sc1 heq =>
      rcases processTail_events_mem h p obj _ sc1 _ _ ev hm with hm2 | hm2 | hm2 | hm2
      · rcases List.mem_append.mp hm2 with hm3 | hm3
        · exact Or.inl (hpass ev hm3)
        · exact Or.inr (Or.inl (List.mem_singleton.mp hm3))
      · exact Or.inr (Or.inr (Or.inl hm2))
      · exact Or.inr (Or.inr (Or.inr (Or.inl hm2)))
      · exact Or.inr (Or.inr (Or.inr (Or.inr ⟨_, hm2⟩)))
  · rcases processTail_events_mem h p obj _ _ _ _ ev hm with hm2 | hm2 | hm2 | hm2
    · exact Or.inl (hpass ev hm2)
    · exact Or.inr (Or.inr (Or.inl hm2))
    · exact Or.inr (Or.inr (Or.inr (Or.inl hm2)))
    · exact Or.inr (Or.inr (Or.inr (Or.inr ⟨_, hm2⟩)))

theorem runShape_of_processObj (h : Host) (p : Params) (obj : String) (sc0 : Scene)
    (g0 : RngState) (ev : Event) (hm : ev ∈ (processObj h p obj sc0 g0).events) :
    RunShape p ev := by
  rcases processObj_events_mem h p obj sc0 g0 ev hm with
    ⟨i, os, q, heq, -⟩ | heq | ⟨e, fs, heq, hl, hdf⟩ | heq | ⟨mv, fl, heq⟩
  · exact Or.inl ⟨obj, i, os, q, heq⟩
  · exact Or.inr (Or.inl ⟨obj, heq⟩)
  · exact Or.inr (Or.inr (Or.inl ⟨obj, e, fs, heq, hl, hdf⟩))
  · exact Or.inr (Or.inr (Or.inr (Or.inl ⟨obj, heq⟩)))
  · exact Or.inr (Or.inr (Or.inr (Or.inr ⟨obj, mv, fl, heq⟩)))

theorem objsLoop_events_mem (h : Host) (p : Params) :
    ∀ (objs : List String) (sc : Scene) (g : RngState) (ev : Event),
      ev ∈ (objsLoop h p objs sc g).events → RunShape p ev := by
  intro objs
  induction objs with
  | nil =>
    intro sc g ev hm
    simp [objsLoop] at hm
  | cons obj rest ih =>
    intro sc g ev hm
    simp only [objsLoop] at hm
    split at hm
    · rcases List.mem_append.mp hm with hm2 | hm2
      · exact runShape_of_processObj h p obj sc g ev hm2
      · exact ih _ _ ev hm2
    · exact runShape_of_processObj h p obj sc g ev hm

theorem run_events_mem (h : Host) (p : Params) (g0 : RngState) (ev : Event)
    (hm : ev ∈ (random_triangulate_with_options h p g0).events) :
    ev = .warning warnMsg ∨ ev = .undoOpen ∨ ev = .undoClose ∨ RunShape p ev := by
  simp only [random_triangulate_with_options] at hm
  split at hm
  · exact Or.inl (List.mem_singleton.mp hm)
  · rcases List.mem_cons.mp hm with heq | hm2
    · exact Or.inr (Or.inl heq)
    · rcases List.mem_append.mp hm2 with hm3 | hm3
      · exact Or.inr (Or.inr (Or.inr (objsLoop_events_mem h p _ _ _ ev hm3)))
      · exact Or.inr (Or.inr (Or.inl (List.mem_singleton.mp hm3)))

/-! ### Claims C2 to C6 -/

/-- C2.  With boundary lock enabled, no `xform` position write is ever
issued for a vertex in the boundary set computed for the mesh: the whole
per-mesh processing step emits no such event. -/
theorem C2_boundary_vertex_never_written (h : Host) (p : Params) (obj : String)
    (sc : Scene) (g : RngState) (i : ℕ) (os : Bool) (q : Pos)
    (hlb : p.lock_boundary = true) (hib : i ∈ boundary_vertex_indices sc obj) :
    Event.xformSet obj i os q ∉ (processObj h p obj sc g).events := by
  intro hm
  rcases processObj_events_mem h p obj sc g _ hm with
    ⟨i', os', q', heq, hnb⟩ | heq | ⟨e, fs, heq, -, -⟩ | heq | ⟨mv, fl, heq⟩
  · rw [Event.xformSet.injEq] at heq
    obtain ⟨-, rfl, -, -⟩ := heq
    rw [hlb] at hnb
    simp only [if_true] at hnb
    exact hnb hib
  · simp at heq
  · simp at heq
  · simp at heq
  · simp at heq

/-- C2 witness: on a concrete host whose mesh has one boundary edge with
endpoints 1 and 2, vertex 1 is in the boundary set and is never written. -/
theorem C2_witness :
    defaultParams.lock_boundary = true ∧
      1 ∈ boundary_vertex_indices boundaryScene "a" ∧
      Event.xformSet "a" 1 false ⟨0, 0, 0⟩ ∉
        (processObj emptyHost defaultParams "a" boundaryScene zeroGen).events :=
  ⟨rfl, by decide,
    C2_boundary_vertex_never_written emptyHost defaultParams "a" boundaryScene zeroGen
      1 false ⟨0, 0, 0⟩ rfl (by decide)⟩

/-- C3.  Determinism: the observable outcome (event trace, hence every
per-vertex delta and moved count, final scene, normal return) does not
depend on the state the process-wide generator was in before the call,
because line 115 reseeds it from the user-supplied seed before any draw;
with the same host (same selection and geometry) and the same parameters
(same seed) the outcome is identical. -/
theorem C3_deterministic_for_fixed_seed (h : Host) (p : Params) (g1 g2 : RngState) :
    (random_triangulate_with_options h p g1).events
        = (random_triangulate_with_options h p g2).events ∧
      (random_triangulate_with_options h p g1).scene
        = (random_triangulate_with_options h p g2).scene ∧
      (random_triangulate_with_options h p g1).ok
        = (random_triangulate_with_options h p g2).ok := by
  simp only [random_triangulate_with_options]
  split <;> simp

/-- C4.  Every `polyFlipEdge` invocation in the whole run is on an edge
whose queried adjacent-face list has length exactly two — in particular
never on a boundary edge (one adjacent face), over all iterations. -/
theorem C4_flip_only_on_interior_edges (h : Host) (p : Params) (g0 : RngState) :
    (random_triangulate_with_options h p g0).events.all flipFacesOk = true := by
  rw [List.all_eq_true]
  intro ev hm
  rcases run_events_mem h p g0 ev hm with rfl | rfl | rfl | hshape
  · rfl
  · rfl
  · rfl
  · rcases hshape with
      ⟨o, i, os, q, rfl⟩ | ⟨o, rfl⟩ | ⟨o, e, fs, rfl, hl, -⟩ | ⟨o, rfl⟩ | ⟨o, mv, fl, rfl⟩
    · rfl
    · rfl
    · simp [flipFacesOk, hl]
    · rfl
    · rfl

/-- C5.  An empty resolved selection only warns: the call returns normally
with the scene untouched, no undo chunk opened, no vertex moved, no
triangulate or flip issued, no history deleted, and the generator is not
even reseeded. -/
theorem C5_empty_selection_no_mutation (h : Host) (p : Params) (g0 : RngState)
    (hobjs : get_mesh_transforms_from_selection h = []) :
    random_triangulate_with_options h p g0
      = ⟨[.warning warnMsg], h.scene, true, g0⟩ := by
  simp [random_triangulate_with_options, hobjs]

/-- C5 witness: the empty host resolves to no mesh and the run is exactly
the warning. -/
theorem C5_witness :
    get_mesh_transforms_from_selection emptyHost = [] ∧
      random_triangulate_with_options emptyHost defaultParams zeroGen
        = ⟨[.warning warnMsg], emptyHost.scene, true, zeroGen⟩ :=
  ⟨rfl, C5_empty_selection_no_mutation emptyHost defaultParams zeroGen rfl⟩

theorem runShape_ne_undo (p : Params) (ev : Event) (hs : RunShape p ev) :
    ev ≠ Event.undoOpen ∧ ev ≠ Event.undoClose := by
  rcases hs with
    ⟨o, i, os, q, rfl⟩ | ⟨o, rfl⟩ | ⟨o, e, fs, rfl, -, -⟩ | ⟨o, rfl⟩ | ⟨o, mv, fl, rfl⟩ <;>
    exact ⟨by simp, by simp⟩

theorem getLast?_append_singleton {α : Type} (l : List α) (a : α) :
    (l ++ [a]).getLast? = some a := by
  induction l with
  | nil => rfl
  | cons b rest ih =>
    cases rest with
    | nil => rfl
    | cons c rest2 =>
      rw [List.cons_append, List.cons_append, List.getLast?_cons_cons]
      exact ih

/-- C6.  The undo chunk is always balanced: the trace holds as many
`openChunk` as `closeChunk` calls, and whenever the run gets past the
selection check the trace ends with the `finally`-guaranteed `closeChunk`
(the only other trace is the bare warning), on every exit path including a
raising host call. -/
theorem C6_undo_chunk_always_closed (h : Host) (p : Params) (g0 : RngState) :
    (random_triangulate_with_options h p g0).events.count Event.undoOpen
        = (random_triangulate_with_options h p g0).events.count Event.undoClose ∧
      ((random_triangulate_with_options h p g0).events.getLast? = some Event.undoClose ∨
        (random_triangulate_with_options h p g0).events = [Event.warning warnMsg]) := by
  simp only [random_triangulate_with_options]
  split
  · refine ⟨?_, Or.inr rfl⟩
    have h1 : List.count Event.undoOpen [Event.warning warnMsg] = 0 :=
      List.count_eq_zero.mpr (by simp)
    have h2 : List.count Event.undoClose [Event.warning warnMsg] = 0 :=
      List.count_eq_zero.mpr (by simp)
    show List.count Event.undoOpen [Event.warning warnMsg]
        = List.count Event.undoClose [Event.warning warnMsg]
    rw [h1, h2]
  · constructor
    · have hno : ∀ ev ∈ (objsLoop h p (get_mesh_transforms_from_selection h) h.scene
          ⟨h.seedStream p.seed, 0⟩).events, RunShape p ev :=
        fun ev hm => objsLoop_events_mem h p _ _ _ ev hm
      have h1 : (objsLoop h p (get_mesh_transforms_from_selection h) h.scene
          ⟨h.seedStream p.seed, 0⟩).events.count Event.undoOpen = 0 :=
        List.count_eq_zero.mpr (fun hm => (runShape_ne_undo p _ (hno _ hm)).1 rfl)
      have h2 : (objsLoop h p (get_mesh_transforms_from_selection h) h.scene
          ⟨h.seedStream p.seed, 0⟩).events.count Event.undoClose = 0 :=
        List.count_eq_zero.mpr (fun hm => (runShape_ne_undo p _ (hno _ hm)).2 rfl)
      simp [List.count_cons, List.count_append, h1, h2]
    · left
      rw [show (Event.undoOpen :: ((objsLoop h p (get_mesh_transforms_from_selection h)
          h.scene ⟨h.seedStream p.seed, 0⟩).events ++ [Event.undoClose]))
          = (Event.undoOpen :: (objsLoop h p (get_mesh_transforms_from_selection h)
            h.scene ⟨h.seedStream p.seed, 0⟩).events) ++ [Event.undoClose] from rfl]
      exact getLast?_append_singleton _ _

/-! ### Claim C7: the selection resolver -/

theorem meshTransformsLoop_mem (h : Host) :
    ∀ (sel seen : List String) (t : String),
      t ∈ meshTransformsLoop h sel seen ↔
        t ∉ seen ∧ h.objExists t = true ∧ h.nodeType t = "transform" ∧
          qualifyingShapes h t ≠ [] ∧ ∃ s ∈ sel, resolveEntry h s = t := by
  intro sel
  induction sel with
  | nil =>
    intro seen t
    simp [meshTransformsLoop]
  | cons s0 rest ih =>
    intro seen t
    simp only [meshTransformsLoop]
    by_cases hok : h.objExists (resolveEntry h s0) = true
        ∧ h.nodeType (resolveEntry h s0) = "transform"
    · rw [if_pos hok]
      by_cases hq : qualifyingShapes h (resolveEntry h s0) ≠ [] ∧ resolveEntry h s0 ∉ seen
      · rw [if_pos hq]
        constructor
        · intro hm
          rcases List.mem_cons.mp hm with rfl | hm2
          · exact ⟨hq.2, hok.1, hok.2, hq.1, s0, List.mem_cons_self s0 rest, rfl⟩
          · obtain ⟨hns, he, hn, hqs, s, hs, hrs⟩ := (ih _ t).mp hm2
            exact ⟨fun hx => hns (List.mem_cons_of_mem _ hx), he, hn, hqs,
              s, List.mem_cons_of_mem _ hs, hrs⟩
        · rintro ⟨hns, he, hn, hqs, s, hs, hrs⟩
          rcases List.mem_cons.mp hs with rfl | hs2
          · rw [← hrs]
            exact List.mem_cons_self _ _
          · by_cases ht0 : t = resolveEntry h s0
            · rw [ht0]
              exact List.mem_cons_self _ _
            · refine List.mem_cons_of_mem _ ((ih _ t).mpr ⟨?_, he, hn, hqs, s, hs2, hrs⟩)
              intro hx
              rcases List.mem_cons.mp hx with h1 | h1
              · exact ht0 h1
              · exact hns h1
      · rw [if_neg hq, ih seen t]
        constructor
        · rintro ⟨hns, he, hn, hqs, s, hs, hrs⟩
          exact ⟨hns, he, hn, hqs, s, List.mem_cons_of_mem _ hs, hrs⟩
        · rintro ⟨hns, he, hn, hqs, s, hs, hrs⟩
          rcases List.mem_cons.mp hs with rfl | hs2
          · rcases not_and_or.mp hq with hq1 | hq2
            · rw [hrs] at hq1
              exact absurd hqs hq1
            · rw [hrs] at hq2
              exact absurd (not_not.mp hq2) hns
          · exact ⟨hns, he, hn, hqs, s, hs2, hrs⟩
    · rw [if_neg hok, ih seen t]
      constructor
      · rintro ⟨hns, he, hn, hqs, s, hs, hrs⟩
        exact ⟨hns, he, hn, hqs, s, List.mem_cons_of_mem _ hs, hrs⟩
      · rintro ⟨hns, he, hn, hqs, s, hs, hrs⟩
        rcases List.mem_cons.mp hs with rfl | hs2
        · rw [hrs] at hok
          exact absurd ⟨he, hn⟩ hok
        · exact ⟨hns, he, hn, hqs, s, hs2, hrs⟩

theorem meshTransformsLoop_nodup (h : Host) :
    ∀ (sel seen : List String), (meshTransformsLoop h sel seen).Nodup := by
  intro sel
  induction sel with
  | nil =>
    intro seen
    simp [meshTransformsLoop]
  | cons s0 rest ih =>
    intro seen
    simp only [meshTransformsLoop]
    split
    · split
      · refine List.nodup_cons.mpr ⟨?_, ih _⟩
        intro hmem
        exact ((meshTransformsLoop_mem h rest _ _).mp hmem).1 (List.mem_cons_self _ _)
      · exact ih _
    · exact ih _

theorem meshTransformsLoop_sublist (h : Host) :
    ∀ (sel seen : List String),
      (meshTransformsLoop h sel seen).Sublist (sel.map (resolveEntry h)) := by
  intro sel
  induction sel with
  | nil =>
    intro seen
    simp [meshTransformsLoop]
  | cons s0 rest ih =>
    intro seen
    simp only [meshTransformsLoop, List.map_cons]
    split
    · split
      · exact (ih _).cons₂ _
      · exact (ih _).cons _
    · exact (ih _).cons _

/-- C7.  The selection resolver returns a duplicate-free list; a transform
is in it exactly when some selection entry resolves to it (components cut
back to their object, mesh shapes replaced by their parent) and it exists,
is a transform, and owns at least one non-intermediate mesh shape; and the
output is a sublist of the resolved selection, so selection order is
preserved.  The function is a pure query of the host: it has no effect on
the scene by construction. -/
theorem C7_selection_resolver_spec (h : Host) :
    (get_mesh_transforms_from_selection h).Nodup ∧
      (∀ t, t ∈ get_mesh_transforms_from_selection h ↔
        h.objExists t = true ∧ h.nodeType t = "transform" ∧
          qualifyingShapes h t ≠ [] ∧ ∃ s ∈ h.selection, resolveEntry h s = t) ∧
      (get_mesh_transforms_from_selection h).Sublist (h.selection.map (resolveEntry h)) := by
  refine ⟨meshTransformsLoop_nodup h _ _, ?_, meshTransformsLoop_sublist h _ _⟩
  intro t
  rw [get_mesh_transforms_from_selection, meshTransformsLoop_mem]
  simp

/-! ### Claim C8: the boundary detector -/

/-- C8.  On a host whose `edgeToVertex` replies are well formed (first
number the edge index, the rest the edge's endpoints), the boundary set is
exactly the set of vertices that are an endpoint of at least one edge whose
parsed adjacent-face list has length exactly one; edges with zero, two or
more adjacent faces contribute nothing. -/
theorem C8_boundary_endpoints_iff (sc : Scene) (obj : String) (v : ℕ)
    (hwf : ∀ e, e < sc.edgeCount obj →
      sc.edgeVertNums obj e = some (e :: sc.edgeVerts obj e)) :
    v ∈ boundary_vertex_indices sc obj ↔
      ∃ e, e < sc.edgeCount obj ∧
        (∃ fs, sc.edgeFaces obj e = some fs ∧ fs.length = 1) ∧
        v ∈ sc.edgeVerts obj e := by
  unfold boundary_vertex_indices
  rw [Finset.mem_biUnion]
  constructor
  · rintro ⟨e, he, hv⟩
    rw [Finset.mem_range] at he
    rcases hf : sc.edgeFaces obj e with - | fs
    · rw [hf] at hv
      have hv2 : v ∈ (∅ : Finset ℕ) := hv
      simp at hv2
    · rw [hf] at hv
      have hv2 : v ∈ (if fs.length = 1 then
          (match sc.edgeVertNums obj e with
            | none => (∅ : Finset ℕ)
            | some nums => (nums.drop 1).toFinset)
          else ∅) := hv
      by_cases hl : fs.length = 1
      · rw [if_pos hl, hwf e he] at hv2
        have hv3 : v ∈ (sc.edgeVerts obj e).toFinset := hv2
        exact ⟨e, he, ⟨fs, hf, hl⟩, List.mem_toFinset.mp hv3⟩
      · rw [if_neg hl] at hv2
        simp at hv2
  · rintro ⟨e, he, ⟨fs, hf, hl⟩, hv⟩
    refine ⟨e, Finset.mem_range.mpr he, ?_⟩
    rw [hf]
    show v ∈ (if fs.length = 1 then
        (match sc.edgeVertNums obj e with
          | none => (∅ : Finset ℕ)
          | some nums => (nums.drop 1).toFinset)
        else ∅)
    rw [if_pos hl, hwf e he]
    show v ∈ (sc.edgeVerts obj e).toFinset
    exact List.mem_toFinset.mpr hv

/-- C8 witness: on the concrete one-boundary-edge scene the equivalence is
established at vertex 1. -/
theorem C8_witness :
    (∀ e, e < boundaryScene.edgeCount "a" →
        boundaryScene.edgeVertNums "a" e = some (e :: boundaryScene.edgeVerts "a" e)) ∧
      (1 ∈ boundary_vertex_indices boundaryScene "a" ↔
        ∃ e, e < boundaryScene.edgeCount "a" ∧
          (∃ fs, boundaryScene.edgeFaces "a" e = some fs ∧ fs.length = 1) ∧
          1 ∈ boundaryScene.edgeVerts "a" e) := by
  have hv : ∀ e, e < boundaryScene.edgeCount "a" →
      boundaryScene.edgeVertNums "a" e = some (e :: boundaryScene.edgeVerts "a" e) := by
    intro e he
    have he2 : e < 1 := he
    have he0 : e = 0 := by omega
    subst he0
    rfl
  exact ⟨hv, C8_boundary_endpoints_iff boundaryScene "a" 1 hv⟩

/-! ### Claim C9: flip disabled -/

theorem randomizeLoop_faceCount (p : Params) (obj : String) (B : Finset ℕ) :
    ∀ (l : List ℕ) (st : St),
      ((randomizeLoop p obj B l st).scene).faceCount = st.scene.faceCount := by
  intro l
  induction l with
  | nil =>
    intro st
    simp [randomizeLoop]
  | cons i rest ih =>
    intro st
    by_cases hiB : i ∈ B
    · rw [show randomizeLoop p obj B (i :: rest) st = randomizeLoop p obj B rest st by
        simp [randomizeLoop, hiB]]
      exact ih st
    · rw [show randomizeLoop p obj B (i :: rest) st
          = randomizeLoop p obj B rest (randomizeVertex p obj i st) by
        simp [randomizeLoop, hiB]]
      rw [ih _]
      simp only [randomizeVertex]
      split
      · rfl
      · exact setPos_faceCount _ _ _ _ _

/-- C9.  With `do_flip` off: the whole run never invokes `polyFlipEdge`;
every summary message is the moved-count form independent of any flipped
count (the flipped field is omitted); and the randomize pass alone changes
no topology — it only issues position writes, so the face count of the
scene is unchanged by it. -/
theorem C9_flip_disabled_no_flip_effects (h : Host) (p : Params) (g0 : RngState)
    (hdf : p.do_flip = false) :
    ((random_triangulate_with_options h p g0).events.all fun ev => !ev.isFlipEdge) = true ∧
      (∀ m, Event.message m ∈ (random_triangulate_with_options h p g0).events →
        ∃ o mv, ∀ fl, m = summaryMsg p o mv fl) ∧
      ∀ (obj : String) (B : Finset ℕ) (st : St),
        ((randomizePass p obj B st).scene).faceCount = st.scene.faceCount := by
  refine ⟨?_, ?_, ?_⟩
  · rw [List.all_eq_true]
    intro ev hm
    rcases run_events_mem h p g0 ev hm with rfl | rfl | rfl | hshape
    · rfl
    · rfl
    · rfl
    · rcases hshape with
        ⟨o, i, os, q, rfl⟩ | ⟨o, rfl⟩ | ⟨o, e, fs, rfl, -, hdf2⟩ | ⟨o, rfl⟩ | ⟨o, mv, fl, rfl⟩
      · rfl
      · rfl
      · rw [hdf] at hdf2
        simp at hdf2
      · rfl
      · rfl
  · intro m hm
    rcases run_events_mem h p g0 _ hm with heq | heq | heq | hshape
    · simp at heq
    · simp at heq
    · simp at heq
    · rcases hshape with
        ⟨o, i, os, q, heq⟩ | ⟨o, heq⟩ | ⟨o, e, fs, heq, -, -⟩ | ⟨o, heq⟩ | ⟨o, mv, fl0, heq⟩
      · simp at heq
      · simp at heq
      · simp at heq
      · simp at heq
      · rw [Event.message.injEq] at heq
        subst heq
        exact ⟨o, mv, fun fl => by simp [summaryMsg, hdf]⟩
  · intro obj B st
    rw [show randomizePass p obj B st
        = randomizeLoop p obj B (List.range (st.scene.vtxCount obj)) st from rfl]
    exact randomizeLoop_faceCount p obj B _ st

/-- C9 witness: with the default parameters (flip off) the concrete run has
no flip event. -/
theorem C9_witness :
    defaultParams.do_flip = false ∧
      ((random_triangulate_with_options emptyHost defaultParams zeroGen).events.all
        fun ev => !ev.isFlipEdge) = true :=
  ⟨rfl, (C9_flip_disabled_no_flip_effects emptyHost defaultParams zeroGen rfl).1⟩

/-! ### Claim C10: flip iteration clamping -/

theorem flipEdgePass_cursor (h : Host) (p : Params) (obj : String) :
    ∀ (l : List ℕ) (st : St),
      ((flipEdgePass h p obj l st).g).k = st.g.k + l.length := by
  intro l
  induction l with
  | nil =>
    intro st
    simp [flipEdgePass]
  | cons e rest ih =>
    intro st
    simp only [flipEdgePass]
    split
    · rw [ih]
      simp [draw]
      omega
    · split
      · rw [ih]
        simp [draw]
        omega
      · split
        · next sc' heq =>
          rw [ih]
          simp [draw]
          omega
        · next heq =>
          rw [ih]
          simp [draw]
          omega

theorem flipIterLoop_cursor (h : Host) (p : Params) (obj : String) :
    ∀ (n ec : ℕ) (st : St),
      ((flipIterLoop h p obj n ec st).g).k = st.g.k + n * ec := by
  intro n
  induction n with
  | zero =>
    intro ec st
    simp [flipIterLoop]
  | succ m ih =>
    intro ec st
    rw [show flipIterLoop h p obj (m + 1) ec st
        = flipIterLoop h p obj m ec (flipEdgePass h p obj (List.range ec) st) from rfl]
    rw [ih, flipEdgePass_cursor, List.length_range, Nat.succ_mul]
    omega

/-- C10.  `flip_iterations` is clamped to at least one by
`max(1, int(flip_iterations))`, so even for a zero or negative argument the
flip phase makes at least one full pass over the edges: its cursor advances
by exactly `iterations * edge_count` draws (one `random.random()` per edge
per pass), which is at least `edge_count`. -/
theorem C10_flip_iterations_clamped (h : Host) (p : Params) (obj : String)
    (ec : ℕ) (sc : Scene) (g : RngState) (evs : List Event) :
    1 ≤ resolveFlipIterations p.flip_iterations ∧
      ((flipIterLoop h p obj (resolveFlipIterations p.flip_iterations) ec
          ⟨sc, 0, g, evs⟩).g).k
        = g.k + resolveFlipIterations p.flip_iterations * ec ∧
      g.k + ec ≤ ((flipIterLoop h p obj (resolveFlipIterations p.flip_iterations) ec
          ⟨sc, 0, g, evs⟩).g).k := by
  have h1 : 1 ≤ resolveFlipIterations p.flip_iterations := by
    have h0 := le_max_left (1 : ℤ) p.flip_iterations
    unfold resolveFlipIterations
    omega
  have h2 : ((flipIterLoop h p obj (resolveFlipIterations p.flip_iterations) ec
      ⟨sc, 0, g, evs⟩).g).k = g.k + resolveFlipIterations p.flip_iterations * ec :=
    flipIterLoop_cursor h p obj _ ec ⟨sc, 0, g, evs⟩
  refine ⟨h1, h2, ?_⟩
  rw [h2]
  have h3 : ec ≤ resolveFlipIterations p.flip_iterations * ec :=
    Nat.le_mul_of_pos_left ec h1
  omega
